import Mathlib

/-!
Verification of the connector-inventory serverless handlers.

The repository consists of Netlify function variants:
  * `netlify/functions/get-connectors.js` (two revisions in one file): reads
    spreadsheet rows, normalizes them into items, derives dropdown options;
  * `netlify/functions/image-proxy.js` (two revisions): relays an image fetch.

This file shallowly embeds the row-normalization pipeline, the image-reference
resolvers (`buildDriveThumbnailUrl`, `normalizeDriveUrl`), the term-range
formatter, the `Number()`-based quantity parsing, the option extraction, and
the image-proxy handlers, and proves or refutes the specification claims.

Strings are modeled as Lean `String`/`List Char`; JavaScript numbers as exact
rationals (`Rat`) plus explicit NaN/Infinity constructors (`JsNum`); the
regular expressions in the source are small enough to be translated into
explicit leftmost-match scanners over character lists.
-/

namespace ConnInv

/-! ## Character classes used by the source regexes -/

/-- JavaScript whitespace (`\s`, `String.prototype.trim`), restricted to the
ASCII range that spreadsheet cell values can contain: space, tab, LF, VT, FF,
CR. -/
def isWs (c : Char) : Bool :=
  c = ' ' || c = '\t' || c = '\n' || c = '\r' || c.toNat = 11 || c.toNat = 12

/-- The quote characters stripped by `str.replace(/^['"]+|['"]+$/g, "")`. -/
def isQuoteChar (c : Char) : Bool := c = '\'' || c = '"'

/-- The Drive file-id character class `[a-zA-Z0-9_-]`. -/
def isIdChar (c : Char) : Bool := c.isAlphanum || c = '_' || c = '-'

/-! ## List-level helpers for `trim` and quote stripping -/

/-- Drop the maximal run of characters satisfying `p` from the end. -/
def dropTrail (p : Char → Bool) (l : List Char) : List Char :=
  (l.reverse.dropWhile p).reverse

/-- `String.prototype.trim` on a character list. -/
def trimList (l : List Char) : List Char :=
  dropTrail isWs (l.dropWhile isWs)

/-- `str.replace(/^['"]+|['"]+$/g, "")`: remove the leading and the trailing
run of quote characters. -/
def stripEdgeQuotes (l : List Char) : List Char :=
  dropTrail isQuoteChar (l.dropWhile isQuoteChar)

/-- The cleanup both resolvers perform first: `String(raw).trim()` followed by
the edge-quote strip. -/
def cleanRef (l : List Char) : List Char :=
  stripEdgeQuotes (trimList l)

/-- `String.prototype.trim` on a `String`. -/
def jsTrim (s : String) : String := String.mk (trimList s.toList)

/-! ## Leftmost regex matching

Each source regex is small; it is embedded as a matcher that attempts an
anchored match at one position, plus a scanner that tries every position left
to right and returns the first capture — exactly the leftmost-match semantics
of `String.prototype.match`. -/

/-- Try `tryAt` at every suffix, leftmost first, returning the first capture. -/
def scanFirst (tryAt : List Char → Option (List Char)) : List Char → Option (List Char)
  | [] => none
  | c :: rest =>
    match tryAt (c :: rest) with
    | some r => some r
    | none => scanFirst tryAt rest

/-- Anchored match of `[?&]id=(CLS+)` where `CLS` is the parameter class
(`[a-zA-Z0-9_-]` in `buildDriveThumbnailUrl`, `[^&]` in `normalizeDriveUrl`);
the capture is the maximal nonempty run of `CLS` characters. -/
def tryIdParamAt (cls : Char → Bool) : List Char → Option (List Char)
  | [] => none
  | c :: rest =>
    if c = '?' || c = '&' then
      match rest with
      | 'i' :: 'd' :: '=' :: rest2 =>
        if rest2.takeWhile cls = [] then none else some (rest2.takeWhile cls)
      | _ => none
    else none

/-- Anchored match of `\/d\/([a-zA-Z0-9_-]+)`. -/
def tryFileDAt : List Char → Option (List Char)
  | [] => none
  | c :: rest =>
    if c = '/' then
      match rest with
      | 'd' :: '/' :: rest2 =>
        if rest2.takeWhile isIdChar = [] then none else some (rest2.takeWhile isIdChar)
      | _ => none
    else none

/-- Anchored match of `\/file\/d\/([^/]+)`. -/
def tryFileD2At : List Char → Option (List Char)
  | [] => none
  | c :: rest =>
    if c = '/' then
      match rest with
      | 'f' :: 'i' :: 'l' :: 'e' :: '/' :: 'd' :: '/' :: rest2 =>
        if rest2.takeWhile (fun x => !decide (x = '/')) = [] then none
        else some (rest2.takeWhile (fun x => !decide (x = '/')))
      | _ => none
    else none

/-- Whole-string match of `^[a-zA-Z0-9_-]{20,}$`. -/
def tryBareId (l : List Char) : Option (List Char) :=
  if l.all isIdChar && decide (20 ≤ l.length) then some l else none

/-- `startsWithSeq p l` iff `p` is an initial segment of `l`. -/
def startsWithSeq : List Char → List Char → Bool
  | [], _ => true
  | _ :: _, [] => false
  | p :: ps, c :: cs => p = c && startsWithSeq ps cs

/-- `String.prototype.includes`: `pat` occurs contiguously in the list. -/
def containsSeq (pat : List Char) : List Char → Bool
  | [] => startsWithSeq pat []
  | c :: rest => startsWithSeq pat (c :: rest) || containsSeq pat rest

/-! ## The two image-reference resolvers -/

/-- The literal prefix of the thumbnail URL built by `buildDriveThumbnailUrl`. -/
def thumbPre : List Char := "https://drive.google.com/thumbnail?id=".toList

/-- The literal suffix of the thumbnail URL built by `buildDriveThumbnailUrl`. -/
def thumbSuf : List Char := "&sz=w400".toList

/-- The identifier-extraction chain of `buildDriveThumbnailUrl`: the `?id=`
query-parameter regex, then the `/d/` path regex, then the bare-id regex, the
first success winning. -/
def driveExtract (l : List Char) : Option (List Char) :=
  match scanFirst (tryIdParamAt isIdChar) l with
  | some r => some r
  | none =>
    match scanFirst tryFileDAt l with
    | some r => some r
    | none => tryBareId l

/-- `buildDriveThumbnailUrl` from `netlify/functions/get-connectors.js`
(first revision, lines 21–60). -/
def buildDriveThumbnailUrl (raw : String) : String :=
  if raw = "" then ""
  else
    let str := cleanRef raw.toList
    match driveExtract str with
    | some id => String.mk (thumbPre ++ id ++ thumbSuf)
    | none => String.mk str

/-- The substring whose presence `normalizeDriveUrl` tests with `includes`. -/
def drivePat : List Char := "drive.google.com".toList

/-- The literal prefix of the download URL built by `normalizeDriveUrl`. -/
def dlPre : List Char := "https://drive.usercontent.google.com/download?id=".toList

/-- The literal suffix of the download URL built by `normalizeDriveUrl`. -/
def dlSuf : List Char := "&export=view".toList

/-- The identifier-extraction chain of `normalizeDriveUrl`: the `?id=([^&]+)`
regex, then the `/file/d/([^/]+)` regex. -/
def normExtract (l : List Char) : Option (List Char) :=
  match scanFirst (tryIdParamAt (fun x => !decide (x = '&'))) l with
  | some r => some r
  | none => scanFirst tryFileD2At l

/-- `normalizeDriveUrl` from `netlify/functions/get-connectors.js`
(second revision, lines 270–293). -/
def normalizeDriveUrl (raw : String) : String :=
  if raw = "" then ""
  else
    let str := cleanRef raw.toList
    if containsSeq drivePat str then
      match normExtract str with
      | some id => String.mk (dlPre ++ id ++ dlSuf)
      | none => String.mk str
    else String.mk str

/-! ## formatTermRange -/

/-- Anchored match of `#\s*(\d+\s*-\s*\d+)` at one position; the capture is
the literal span from the first digit through the last digit (the greedy
semantics of the regex: the character classes `\s`, `\d`, `-` are pairwise
disjoint, so maximal-munch is exact). -/
def tryTermAt : List Char → Option (List Char)
  | [] => none
  | c :: rest =>
    if c = '#' then
      let r1 := rest.dropWhile isWs
      let d1 := r1.takeWhile Char.isDigit
      if d1 = [] then none
      else
        let w1 := (r1.dropWhile Char.isDigit).takeWhile isWs
        match (r1.dropWhile Char.isDigit).dropWhile isWs with
        | '-' :: r3 =>
          let w2 := r3.takeWhile isWs
          let d2 := (r3.dropWhile isWs).takeWhile Char.isDigit
          if d2 = [] then none
          else some (d1 ++ w1 ++ '-' :: (w2 ++ d2))
        | _ => none
    else none

/-- `formatTermRange` from `netlify/functions/get-connectors.js` lines 5–9:
extract the first `#\s*(\d+\s*-\s*\d+)` capture, delete its whitespace
(`replace(/\s+/g, "")`), and prefix `T:`; otherwise pass the input through. -/
def formatTermRange (raw : String) : String :=
  if raw = "" then ""
  else
    match scanFirst tryTermAt raw.toList with
    | some cap => "T:" ++ String.mk (cap.filter (fun c => !isWs c))
    | none => raw

/-! ## JavaScript `Number()` on strings

`Number(s)` follows the ECMAScript StringNumericLiteral grammar: trim
whitespace; empty means 0; an optional sign, then a decimal literal with
optional fraction and exponent, or `Infinity`; unsigned `0x`/`0o`/`0b` radix
literals; anything else is NaN.  Values are modeled as exact rationals (the
claims under verification only involve values on which binary64 is exact). -/

/-- An exact finite value `m * 10^e`.  Every value `Number()` yields on a
decimal string literal has this form; the representation is kept canonical
(`m = 0` forces `e = 0`, otherwise `10 ∤ m`), so structural equality is value
equality.  (`Rat` itself is avoided because its arithmetic does not reduce in
the kernel.) -/
structure Dec10 where
  m : Int
  e : Int
deriving DecidableEq

/-- Strip factors of 10 from `m` into the exponent; `fuel` bounds the loop. -/
def strip10 : Nat → Int → Int → Dec10
  | 0, m, e => ⟨m, e⟩
  | f + 1, m, e => if m % 10 = 0 then strip10 f (m / 10) (e + 1) else ⟨m, e⟩

/-- Canonicalizing constructor for `Dec10`. -/
def decMk (m e : Int) : Dec10 :=
  if m = 0 then ⟨0, 0⟩ else strip10 m.natAbs m e

/-- The rational value denoted by a `Dec10` (used only in proofs and
statements, so the non-computing `zpow` is fine here). -/
def decVal (d : Dec10) : Rat := (d.m : Rat) * (10 : Rat) ^ d.e

/-- Three-way comparison of `Dec10` values (sign of the difference), computed
by rescaling both to the smaller exponent. -/
def decCmp (a b : Dec10) : Int :=
  let e := min a.e b.e
  let x := a.m * 10 ^ (a.e - e).toNat
  let y := b.m * 10 ^ (b.e - e).toNat
  if x < y then -1 else if y < x then 1 else 0

/-- A JavaScript number restricted to what `Number(string)` can produce:
NaN, a signed infinity, or a finite value. -/
inductive JsNum where
  | nan : JsNum
  | inf : Bool → JsNum
  | num : Dec10 → JsNum
deriving DecidableEq

/-- Decimal value of a digit list (most significant first). -/
def digitsToNat (l : List Char) : Nat :=
  l.foldl (fun a c => a * 10 + (c.toNat - 48)) 0

/-- Parse an ECMAScript ExponentPart that must extend to the end of the
string; the empty remainder means exponent 0. -/
def parseExpTail : List Char → Option Int
  | [] => some 0
  | e :: rest =>
    if e = 'e' || e = 'E' then
      let sr : Bool × List Char :=
        match rest with
        | '+' :: r => (false, r)
        | '-' :: r => (true, r)
        | r => (false, r)
      if sr.2 ≠ [] ∧ sr.2.all Char.isDigit then
        some (if sr.1 then -(digitsToNat sr.2 : Int) else (digitsToNat sr.2 : Int))
      else none
    else none

/-- Parse an unsigned ECMAScript StrUnsignedDecimalLiteral (without the
`Infinity` alternative), anchored to the whole list.  The value
`(ip . fp) * 10^e` equals `(ip * 10^|fp| + fp) * 10^(e - |fp|)`. -/
def parseUnsignedDec (l : List Char) : Option Dec10 :=
  let ip := l.takeWhile Char.isDigit
  match l.dropWhile Char.isDigit with
  | '.' :: r2 =>
    let fp := r2.takeWhile Char.isDigit
    if ip = [] && fp = [] then none
    else
      match parseExpTail (r2.dropWhile Char.isDigit) with
      | some e =>
        some (decMk ((digitsToNat ip : Int) * 10 ^ fp.length + (digitsToNat fp : Int))
          (e - fp.length))
      | none => none
  | r1 =>
    if ip = [] then none
    else
      match parseExpTail r1 with
      | some e => some (decMk (digitsToNat ip : Int) e)
      | none => none

/-- Hex digit test. -/
def isHexDigit (c : Char) : Bool :=
  c.isDigit || ('a' ≤ c && c ≤ 'f') || ('A' ≤ c && c ≤ 'F')

/-- Octal digit test. -/
def isOctDigit (c : Char) : Bool := '0' ≤ c && c ≤ '7'

/-- Binary digit test. -/
def isBinDigit (c : Char) : Bool := c = '0' || c = '1'

/-- Value of a hex (or smaller-radix) digit. -/
def hexVal (c : Char) : Nat :=
  if c.isDigit then c.toNat - 48
  else if 'a' ≤ c then c.toNat - 87
  else c.toNat - 55

/-- Value of a digit list in radix `b`. -/
def radixToNat (b : Nat) (l : List Char) : Nat :=
  l.foldl (fun a c => a * b + hexVal c) 0

/-- `Infinity` or an unsigned decimal literal, else NaN. -/
def signedDec (l : List Char) : JsNum :=
  if l = "Infinity".toList then JsNum.inf false
  else
    match parseUnsignedDec l with
    | some q => JsNum.num q
    | none => JsNum.nan

/-- Negate a JavaScript number (NaN stays NaN).  Negation preserves the
canonical `Dec10` form. -/
def negJs : JsNum → JsNum
  | JsNum.nan => JsNum.nan
  | JsNum.inf b => JsNum.inf (!b)
  | JsNum.num q => JsNum.num ⟨-q.m, q.e⟩

/-- `Number(s)` on a character list. -/
def jsNumberList (l0 : List Char) : JsNum :=
  match trimList l0 with
  | [] => JsNum.num ⟨0, 0⟩
  | '+' :: rest => signedDec rest
  | '-' :: rest => negJs (signedDec rest)
  | '0' :: c :: rest =>
    if c = 'x' || c = 'X' then
      if rest ≠ [] ∧ rest.all isHexDigit then JsNum.num (decMk (radixToNat 16 rest) 0)
      else JsNum.nan
    else if c = 'o' || c = 'O' then
      if rest ≠ [] ∧ rest.all isOctDigit then JsNum.num (decMk (radixToNat 8 rest) 0)
      else JsNum.nan
    else if c = 'b' || c = 'B' then
      if rest ≠ [] ∧ rest.all isBinDigit then JsNum.num (decMk (radixToNat 2 rest) 0)
      else JsNum.nan
    else signedDec ('0' :: c :: rest)
  | l => signedDec l

/-- `Number(s)` on a `String`. -/
def jsNumber (s : String) : JsNum := jsNumberList s.toList

/-- `Number(s) || 0`: NaN (and 0 itself) collapse to 0, everything else is
kept — the stock-quantity parsing `Number(get(COL.shopQty)) || 0`. -/
def parseQty (s : String) : JsNum :=
  match jsNumber s with
  | JsNum.nan => JsNum.num ⟨0, 0⟩
  | v => v

/-! ## Row access and item construction

From the first revision of `netlify/functions/get-connectors.js`: a row is the
list of formatted cell values of one sheet line; `get` pads missing cells with
the empty string. -/

/-- `const get = (i) => (row[i] !== undefined ? row[i] : "")` (line 135). -/
def getCell (row : List String) (i : Nat) : String := row.getD i ""

/-- JavaScript truthiness of a string: nonempty. -/
def truthyStr (s : String) : Bool := !decide (s = "")

/-- The nested `details` record of an item (first revision). -/
structure ItemDetails where
  altNumber : String
  terminal1Code : String
  terminal1Range : String
  terminal1Tub : String
  terminal2Code : String
  terminal2Range : String
  terminal2Tub : String
  mating : String
  price : String
  ford : String
  gm : String
  hyundaiKia : String
  nissan : String
  toyota : String
deriving DecidableEq

/-- One normalized inventory item (first revision). -/
structure Item where
  picture : String
  partNumber : String
  description : String
  altNumber : String
  shop : String
  shopQty : JsNum
  van : String
  vanQty : JsNum
  pins : String
  category : String
  gender : String
  manufacturer : String
  oems : List String
  vehicle : String
  terminalSizes : String
  details : ItemDetails
deriving DecidableEq

/-- The OEM flag pushes (lines 155–160): names are appended in the fixed
source order Ford, GM, HyundaiKia, Nissan, Toyota, one per truthy flag cell
(columns R–V, indices 17–21). -/
def oemsOf (row : List String) : List String :=
  (if truthyStr (getCell row 17) then ["Ford"] else []) ++
  (if truthyStr (getCell row 18) then ["GM"] else []) ++
  (if truthyStr (getCell row 19) then ["HyundaiKia"] else []) ++
  (if truthyStr (getCell row 20) then ["Nissan"] else []) ++
  (if truthyStr (getCell row 21) then ["Toyota"] else [])

/-- The item pushed for one row (lines 165–208); column indices match the
`COL` map of the source (partNumber 1, shop 7, shopQty 8, van 9, vanQty 10,
gender 11, pins 12, category 13, desc1 14, altNumber 15, manufacturer 16,
OEM flags 17–21, terminals 22–24 and 27–29, mating 30, price 37,
terminalSizes 41, picture 42).  `description = desc1 || ""` equals the cell
itself, since an empty cell is already the default "". -/
def mkItem (row : List String) : Item :=
  { picture := buildDriveThumbnailUrl (getCell row 42)
    partNumber := getCell row 1
    description := getCell row 14
    altNumber := getCell row 15
    shop := getCell row 7
    shopQty := parseQty (getCell row 8)
    van := getCell row 9
    vanQty := parseQty (getCell row 10)
    pins := getCell row 12
    category := getCell row 13
    gender := getCell row 11
    manufacturer := getCell row 16
    oems := oemsOf row
    vehicle := String.intercalate ", " (oemsOf row)
    terminalSizes := getCell row 41
    details :=
      { altNumber := getCell row 15
        terminal1Code := getCell row 24
        terminal1Range := formatTermRange (getCell row 23)
        terminal1Tub := getCell row 22
        terminal2Code := getCell row 27
        terminal2Range := formatTermRange (getCell row 28)
        terminal2Tub := getCell row 29
        mating := getCell row 30
        price := getCell row 37
        ford := getCell row 17
        gm := getCell row 18
        hyundaiKia := getCell row 19
        nissan := getCell row 20
        toyota := getCell row 21 } }

/-- The spacer test (lines 145–151): `partNumber || description || get(shop)
|| get(van) || get(pins) || get(category)` is truthy. -/
def hasData (row : List String) : Bool :=
  truthyStr (getCell row 1) || truthyStr (getCell row 14) ||
  truthyStr (getCell row 7) || truthyStr (getCell row 9) ||
  truthyStr (getCell row 12) || truthyStr (getCell row 13)

/-- The row loop (lines 134–209): rows failing `hasData` are skipped with
`continue`, every other row contributes one item, in source order. -/
def handlerItems : List (List String) → List Item
  | [] => []
  | row :: rest =>
    if hasData row then mkItem row :: handlerItems rest else handlerItems rest

/-- Spec-side predicate for claim C1: every designated significant field —
part number, description, shop location, van location, pin count, category —
is the empty string. -/
def sigAllEmpty (row : List String) : Prop :=
  getCell row 1 = "" ∧ getCell row 14 = "" ∧ getCell row 7 = "" ∧
  getCell row 9 = "" ∧ getCell row 12 = "" ∧ getCell row 13 = ""

instance (row : List String) : Decidable (sigAllEmpty row) := by
  unfold sigAllEmpty; infer_instance

/-! ## Option extraction -/

/-- `arr.filter((v, i, arr) => arr.indexOf(v) === i)`: keep the first
occurrence of each value, in order.  `seen` accumulates the values already
emitted. -/
def dedupFirstAux (seen : List String) : List String → List String
  | [] => []
  | a :: l =>
    if a ∈ seen then dedupFirstAux seen l
    else a :: dedupFirstAux (a :: seen) l

/-- First-occurrence deduplication, as performed by the `indexOf` filter. -/
def dedupFirst (l : List String) : List String := dedupFirstAux [] l

/-- `.map((r) => r[0]).filter(Boolean)`: first cell of each stats row
(missing means `undefined`, modeled as ""), empty values dropped. -/
def optionValues (rows : List (List String)) : List String :=
  (rows.map (fun r => r.getD 0 "")).filter (fun v => !decide (v = ""))

/-- Is a `JsNum` not NaN (the `!isNaN(...)` test)? -/
def notNaN : JsNum → Bool
  | JsNum.nan => false
  | _ => true

/-- Sign of the JavaScript subtraction `na - nb` on non-NaN values, with the
NaN results of `Infinity - Infinity` (and any NaN operand) treated as 0, as
`Array.prototype.sort` does with a NaN comparator result. -/
def cmpNum : JsNum → JsNum → Int
  | JsNum.num x, JsNum.num y => decCmp x y
  | JsNum.num _, JsNum.inf s => if s then 1 else -1
  | JsNum.inf s, JsNum.num _ => if s then -1 else 1
  | JsNum.inf s1, JsNum.inf s2 => if s1 = s2 then 0 else if s1 then -1 else 1
  | _, _ => 0

/-- Ordinal (code-point lexicographic) strict order on character lists. -/
def strLtList : List Char → List Char → Bool
  | [], [] => false
  | [], _ :: _ => true
  | _ :: _, [] => false
  | a :: as, b :: bs => a.toNat < b.toNat || (a = b && strLtList as bs)

/-- Ordinal strict order on strings. -/
def strLtOrd (a b : String) : Bool := strLtList a.toList b.toList

/-- `String(a).localeCompare(String(b))` modeled as ordinal comparison; for
the ASCII digit/letter values appearing in the stats columns the default
collation agrees with ordinal order. -/
def ordCompare (a b : String) : Int :=
  if strLtOrd a b then -1 else if strLtOrd b a then 1 else 0

/-- The comparator of the first `pinOptions` variant (lines 216–221): numeric
when both values are non-NaN numbers, collation otherwise. -/
def pinCmp (a b : String) : Int :=
  if notNaN (jsNumber a) && notNaN (jsNumber b) then cmpNum (jsNumber a) (jsNumber b)
  else ordCompare a b

/-- `pinCmp a b ≤ 0`: "a sorts no later than b". -/
def pinLe (a b : String) : Bool := decide (pinCmp a b ≤ 0)

/-- The comparator of the second `pinOptions` variant (line 448),
`(a, b) => Number(a) - Number(b)`: always numeric, NaN treated as 0. -/
def pinLe2 (a b : String) : Bool := decide (cmpNum (jsNumber a) (jsNumber b) ≤ 0)

/-- Spec-side order: plain lexicographic (ordinal) comparison, the order the
spec prescribes for option lists that contain a non-numeric value.  Defined
only to be compared with the source's comparators. -/
def lexLe (a b : String) : Bool := decide (ordCompare a b ≤ 0)

/-- Insert into a sorted list: `a` goes in front of the first element it
sorts no later than. -/
def insertLe (le : String → String → Bool) (a : String) : List String → List String
  | [] => [a]
  | b :: l => if le a b then a :: b :: l else b :: insertLe le a l

/-- Stable insertion sort.  `Array.prototype.sort` is a stable sort; for a
consistent comparator every stable sort produces the same output, so this
models the source's sort for the comparators above on the inputs where they
are consistent. -/
def sortLe (le : String → String → Bool) : List String → List String
  | [] => []
  | a :: l => insertLe le a (sortLe le l)

/-- The first `pinOptions` pipeline (lines 212–221): first cells, blanks
dropped, first-occurrence dedup, comparator sort. -/
def pinOptionsOf (rows : List (List String)) : List String :=
  sortLe pinLe (dedupFirst (optionValues rows))

/-- The second `pinOptions` pipeline (lines 444–448): same, with the
always-numeric comparator. -/
def pinOptions2Of (rows : List (List String)) : List String :=
  sortLe pinLe2 (dedupFirst (optionValues rows))

/-! ## Spec-side definitions used to state the claims -/

/-- A JSON scalar as far as the price field is concerned: a string or a
number. -/
inductive JVal where
  | jstr : String → JVal
  | jnum : Dec10 → JVal
deriving DecidableEq

/-- The JSON value serialized for `details.price`: the source emits
`price: get(COL.price)` — a string — so `JSON.stringify` renders it as a
JSON string. -/
def emittedPrice (row : List String) : JVal :=
  JVal.jstr ((mkItem row).details.price)

/-- Spec-side price emission, following the spec's words: "a price cell is
emitted as a number when it parses cleanly and is non-empty; otherwise the
original string is preserved".  Defined only to be compared with
`emittedPrice`. -/
def specPrice (row : List String) : JVal :=
  if getCell row 37 = "" then JVal.jstr ""
  else
    match jsNumber (getCell row 37) with
    | JsNum.num d => JVal.jnum d
    | _ => JVal.jstr (getCell row 37)

/-- Spec-side first-match dispatch over an ordered list of matchers (the
spec's "ordered list of independent matcher functions ...; apply in order,
take the first match").  Defined only to be compared with the source's
nested-conditional extraction chains. -/
def firstMatch : List (List Char → Option (List Char)) → List Char → Option (List Char)
  | [], _ => none
  | m :: ms, l =>
    match m l with
    | some r => some r
    | none => firstMatch ms l

/-- The fixed OEM enum order of the spec, with the flag column of each OEM. -/
def oemEnum : List (String × Nat) :=
  [("Ford", 17), ("GM", 18), ("HyundaiKia", 19), ("Nissan", 20), ("Toyota", 21)]

/-- Spec-side OEM derivation: the names whose flag cell is truthy, filtered
in the fixed enum order. -/
def specOems (row : List String) : List String :=
  (oemEnum.filter (fun p => truthyStr (getCell row p.2))).map Prod.fst

/-! ## The image-proxy handlers (`netlify/functions/image-proxy.js`)

The outbound `fetch` is an external collaborator; it is passed to the handler
as a function from the fetched URL to an upstream response.  Bytes are
naturals below 256. -/

/-- What the handler observes of an upstream `fetch` response. -/
structure UpstreamResp where
  ok : Bool
  status : Nat
  statusText : String
  contentType : Option String
  bodyBytes : List Nat
deriving DecidableEq

/-- The Netlify function response: status, the two headers the source sets,
body, and the base64 flag. -/
structure ProxyResp where
  statusCode : Nat
  contentType : Option String
  cacheControl : Option String
  body : String
  isBase64Encoded : Bool
deriving DecidableEq

/-- The base64 alphabet. -/
def b64Digits : List Char :=
  "ABCDEFGHIJKLMNOPQRSTUVWXYZabcdefghijklmnopqrstuvwxyz0123456789+/".toList

/-- The base64 digit for a 6-bit value. -/
def b64Char (n : Nat) : Char := b64Digits.getD n '='

/-- Standard base64 chunking of a byte list (`Buffer.toString("base64")`). -/
def base64Chunks : List Nat → List Char
  | b1 :: b2 :: b3 :: rest =>
    b64Char (b1 / 4) :: b64Char (b1 % 4 * 16 + b2 / 16) ::
      b64Char (b2 % 16 * 4 + b3 / 64) :: b64Char (b3 % 64) :: base64Chunks rest
  | [b1, b2] => [b64Char (b1 / 4), b64Char (b1 % 4 * 16 + b2 / 16), b64Char (b2 % 16 * 4), '=']
  | [b1] => [b64Char (b1 / 4), b64Char (b1 % 4 * 16), '=', '=']
  | [] => []

/-- `Buffer.from(bytes).toString("base64")`. -/
def base64Encode (bs : List Nat) : String := String.mk (base64Chunks bs)

/-- UTF-8 encoding of one character, as byte values. -/
def utf8Bytes (c : Char) : List Nat :=
  let n := c.toNat
  if n < 128 then [n]
  else if n < 2048 then [192 + n / 64, 128 + n % 64]
  else if n < 65536 then [224 + n / 4096, 128 + n / 64 % 64, 128 + n % 64]
  else [240 + n / 262144, 128 + n / 4096 % 64, 128 + n / 64 % 64, 128 + n % 64]

/-- The characters `encodeURIComponent` leaves unescaped. -/
def uriUnreserved (c : Char) : Bool :=
  c.isAlphanum || c = '-' || c = '_' || c = '.' || c = '!' || c = '~' || c = '*' ||
  c = '\'' || c = '(' || c = ')'

/-- Uppercase hex digit for a value below 16. -/
def hexDigitU (n : Nat) : Char := if n < 10 then Char.ofNat (48 + n) else Char.ofNat (55 + n)

/-- Percent-encode one byte. -/
def pctByte (b : Nat) : List Char := ['%', hexDigitU (b / 16), hexDigitU (b % 16)]

/-- Concatenate a list of character lists. -/
def concatAll : List (List Char) → List Char
  | [] => []
  | x :: xs => x ++ concatAll xs

/-- `encodeURIComponent`. -/
def encodeURIComponent (s : String) : String :=
  String.mk (concatAll (s.toList.map
    (fun c => if uriUnreserved c then [c] else concatAll ((utf8Bytes c).map pctByte))))

/-- The Drive thumbnail URL fetched by the id-variant proxy (lines 16–19). -/
def driveThumbFetchUrl (id : String) : String :=
  "https://drive.google.com/thumbnail?id=" ++ encodeURIComponent id ++ "&sz=w600"

/-- The id-variant handler of `image-proxy.js` (first revision, lines 6–52):
400 without an `id` (`!id` is also true for the empty string), 502 when the
upstream fetch is not ok, otherwise 200 with base64 body, the upstream
content type (default `image/jpeg` — also when the header is present but
empty, since `|| "image/jpeg"` tests truthiness) and a 1-day public cache
header. -/
def imageProxyIdHandler (idParam : Option String) (fetch : String → UpstreamResp) :
    ProxyResp :=
  match idParam with
  | none =>
    { statusCode := 400, contentType := none, cacheControl := none
      body := "Missing id parameter", isBase64Encoded := false }
  | some id =>
    if id = "" then
      { statusCode := 400, contentType := none, cacheControl := none
        body := "Missing id parameter", isBase64Encoded := false }
    else
      let resp := fetch (driveThumbFetchUrl id)
      if !resp.ok then
        { statusCode := 502, contentType := none, cacheControl := none
          body := "Failed to fetch image from Drive", isBase64Encoded := false }
      else
        { statusCode := 200
          contentType := some (match resp.contentType with
            | some ct => if ct = "" then "image/jpeg" else ct
            | none => "image/jpeg")
          cacheControl := some "public, max-age=86400"
          body := base64Encode resp.bodyBytes
          isBase64Encoded := true }

/-- The scheme test `/^https?:\/\//i.test(url)`. -/
def schemeOk (u : String) : Bool :=
  startsWithSeq "http://".toList (u.toList.map Char.toLower) ||
  startsWithSeq "https://".toList (u.toList.map Char.toLower)

/-- The url-variant handler of `image-proxy.js` (second revision,
lines 58–109): 400 without a `url`, 400 when the scheme test fails, the
relayed upstream status when the fetch is not ok, otherwise 200 with base64
body, content-type defaulting and the 1-day public cache header. -/
def imageProxyUrlHandler (urlParam : Option String) (fetch : String → UpstreamResp) :
    ProxyResp :=
  match urlParam with
  | none =>
    { statusCode := 400, contentType := none, cacheControl := none
      body := "Missing 'url' query parameter", isBase64Encoded := false }
  | some u =>
    if u = "" then
      { statusCode := 400, contentType := none, cacheControl := none
        body := "Missing 'url' query parameter", isBase64Encoded := false }
    else if !schemeOk u then
      { statusCode := 400, contentType := none, cacheControl := none
        body := "Invalid URL", isBase64Encoded := false }
    else
      let upstream := fetch u
      if !upstream.ok then
        { statusCode := upstream.status, contentType := none, cacheControl := none
          body := "Upstream error: " ++ toString upstream.status ++ " " ++ upstream.statusText
          isBase64Encoded := false }
      else
        { statusCode := 200
          contentType := some (match upstream.contentType with
            | some ct => if ct = "" then "image/jpeg" else ct
            | none => "image/jpeg")
          cacheControl := some "public, max-age=86400"
          body := base64Encode upstream.bodyBytes
          isBase64Encoded := true }

/-! ## Claim theorems -/

/-- Claim C9: for every row and every column index, field extraction returns the
empty string when the index lies beyond the row's actual length (an in-range
index returns the cell itself, so an empty cell yields the empty string);
`getCell` is a total function, so it never fails or throws. -/
theorem c9_getCell_safe (row : List String) (i : Nat) :
    (row.length ≤ i → getCell row i = "") ∧
    (∀ h : i < row.length, getCell row i = row.get ⟨i, h⟩) := by
  constructor
  · intro h
    exact List.getD_eq_default row "" h
  · intro h
    simpa [getCell] using List.getD_eq_getElem row "" h

/-- Witness for C9 at a concrete out-of-range access. -/
theorem c9_witness : getCell ["a"] 5 = "" :=
  (c9_getCell_safe ["a"] 5).1 (by decide)

/-- Claim C7: `formatTermRange` maps "Terminals #1-8" to "T:1-8" and
"Terminals # 12 - 16" to "T:12-16"; when no `#`-range pattern matches, the
input passes through unchanged ("N/A" stays "N/A"); when the pattern
matches, the result is `T:` plus the whitespace-stripped capture.  The
function is a total Lean function, hence pure and never failing. -/
theorem c7_formatTermRange :
    formatTermRange "Terminals #1-8" = "T:1-8" ∧
    formatTermRange "Terminals # 12 - 16" = "T:12-16" ∧
    formatTermRange "N/A" = "N/A" ∧
    (∀ s : String, scanFirst tryTermAt s.toList = none → formatTermRange s = s) ∧
    (∀ (s : String) (cap : List Char), s ≠ "" → scanFirst tryTermAt s.toList = some cap →
      formatTermRange s = "T:" ++ String.mk (cap.filter (fun c => !isWs c))) := by
  refine ⟨by decide, by decide, by decide, ?_, ?_⟩
  · intro s h
    have h' : scanFirst tryTermAt s.data = none := h
    by_cases hs : s = ""
    · simp [formatTermRange, hs]
    · simp [formatTermRange, hs, h']
  · intro s cap hs h
    have h' : scanFirst tryTermAt s.data = some cap := h
    simp [formatTermRange, hs, h']

/-- Witness for C7 at the concrete no-match input. -/
theorem c7_witness : formatTermRange "N/A" = "N/A" :=
  c7_formatTermRange.2.2.2.1 "N/A" (by decide)

/-- Claim C6: the item's OEM list — and hence the derived `vehicle` string,
the comma-and-space join of that list — consists of exactly the OEM names
whose flag cell is truthy, in the fixed enum order Ford, GM, HyundaiKia,
Nissan, Toyota; on a row with truthy Ford and Nissan flags and falsy others
the vehicle string is exactly "Ford, Nissan". -/
theorem c6_vehicle :
    (∀ row : List String, (mkItem row).oems = specOems row ∧
      (mkItem row).vehicle = String.intercalate ", " (specOems row)) ∧
    (mkItem (List.replicate 17 "" ++ ["x", "", "", "y"])).vehicle = "Ford, Nissan" := by
  constructor
  · intro row
    have key : oemsOf row = specOems row := by
      simp only [oemsOf, specOems, oemEnum]
      by_cases h17 : truthyStr (getCell row 17) <;>
        by_cases h18 : truthyStr (getCell row 18) <;>
        by_cases h19 : truthyStr (getCell row 19) <;>
        by_cases h20 : truthyStr (getCell row 20) <;>
        by_cases h21 : truthyStr (getCell row 21) <;>
        simp [h17, h18, h19, h20, h21, List.filter]
    exact ⟨by simp [mkItem, key], by simp [mkItem, key]⟩
  · decide

/-- Claim C2 (amended): the parsed stock quantity is never NaN; it is exactly 0
for the empty cell and whenever `Number()` yields NaN (non-numeric text);
and it equals the parsed numeric value whenever the cell is a numeric
string — which may be negative or fractional, so the result is not in
general a non-negative integer.  The item's `shopQty`/`vanQty` are exactly
this parse of columns 8 and 10. -/
theorem c2_parseQty :
    (∀ s : String, parseQty s ≠ JsNum.nan) ∧
    (∀ s : String, jsNumber s = JsNum.nan → parseQty s = JsNum.num ⟨0, 0⟩) ∧
    parseQty "" = JsNum.num ⟨0, 0⟩ ∧
    (∀ (s : String) (d : Dec10), jsNumber s = JsNum.num d → parseQty s = JsNum.num d) ∧
    (∀ row : List String, (mkItem row).shopQty = parseQty (getCell row 8) ∧
      (mkItem row).vanQty = parseQty (getCell row 10)) := by
  refine ⟨?_, ?_, by decide, ?_, ?_⟩
  · intro s
    cases h : jsNumber s <;> simp [parseQty, h]
  · intro s h
    simp [parseQty, h]
  · intro s d h
    simp [parseQty, h]
  · intro row
    exact ⟨rfl, rfl⟩

/-- Witness for C2 at concrete inputs. -/
theorem c2_witness :
    parseQty "oops" = JsNum.num ⟨0, 0⟩ ∧ parseQty "41" = JsNum.num ⟨41, 0⟩ :=
  ⟨c2_parseQty.2.1 "oops" (by decide), c2_parseQty.2.2.2.1 "41" ⟨41, 0⟩ (by decide)⟩

/-- Claim C2 counterexample to the claim as stated: the quantity cell "-3" parses
to the quantity -3, which is negative, and "2.5" parses to 5/2, which is not
an integer — so the resulting quantity is not always a non-negative
integer. -/
theorem c2_counterexample :
    (mkItem ["", "", "", "", "", "", "", "", "-3"]).shopQty = JsNum.num ⟨-3, 0⟩ ∧
    (⟨-3, 0⟩ : Dec10).m < 0 ∧
    (mkItem ["", "", "", "", "", "", "", "", "2.5"]).shopQty = JsNum.num ⟨25, -1⟩ ∧
    (⟨25, -1⟩ : Dec10).e < 0 := by
  exact ⟨by decide, by decide, by decide, by decide⟩

/-- Claim C1 (amended): the row loop emits exactly the rows on which at least one
of the six significant fields (part number, description, shop, van, pins,
category) is a non-empty string — no trimming is applied — mapped through
item construction, preserving source order. -/
theorem c1_rowFilter (rows : List (List String)) :
    handlerItems rows = (rows.filter (fun r => !decide (sigAllEmpty r))).map mkItem := by
  have key : ∀ r : List String, hasData r = !decide (sigAllEmpty r) := by
    intro r
    by_cases h1 : getCell r 1 = "" <;> by_cases h14 : getCell r 14 = "" <;>
      by_cases h7 : getCell r 7 = "" <;> by_cases h9 : getCell r 9 = "" <;>
      by_cases h12 : getCell r 12 = "" <;> by_cases h13 : getCell r 13 = "" <;>
      simp [hasData, sigAllEmpty, truthyStr, h1, h14, h7, h9, h12, h13]
  induction rows with
  | nil => rfl
  | cons r rest ih =>
    by_cases h : sigAllEmpty r
    · simp [handlerItems, key, h, ih]
    · simp [handlerItems, key, h, ih]

/-- Claim C1 counterexample to the claim as stated: on the row whose part-number
cell is a single space every significant field is empty after trimming, yet
the row is kept (the source tests raw emptiness, without trimming). -/
theorem c1_counterexample :
    (jsTrim (getCell ["", " "] 1) = "" ∧ jsTrim (getCell ["", " "] 14) = "" ∧
      jsTrim (getCell ["", " "] 7) = "" ∧ jsTrim (getCell ["", " "] 9) = "" ∧
      jsTrim (getCell ["", " "] 12) = "" ∧ jsTrim (getCell ["", " "] 13) = "") ∧
    handlerItems [["", " "]] ≠ [] := by
  exact ⟨by decide, by decide⟩

/-- Claim C5 (amended): the emitted price is always the original cell string
preserved unchanged — it is never emitted as a JSON number, hence in
particular never coerced to 0 and never dropped. -/
theorem c5_price :
    (∀ row : List String, emittedPrice row = JVal.jstr (getCell row 37)) ∧
    (∀ (row : List String) (d : Dec10), emittedPrice row ≠ JVal.jnum d) ∧
    (∀ row : List String, (mkItem row).details.price = getCell row 37) := by
  refine ⟨fun row => rfl, ?_, fun row => rfl⟩
  intro row d
  simp [emittedPrice]

/-- Witness for C5 at a concrete row. -/
theorem c5_witness : emittedPrice ["x"] ≠ JVal.jnum ⟨0, 0⟩ :=
  c5_price.2.1 ["x"] ⟨0, 0⟩

/-- Claim C5 counterexample to the claim as stated: on a row whose price cell is
the cleanly numeric, non-empty string "12.5" the spec requires a JSON
number, but the source emits the JSON string "12.5". -/
theorem c5_counterexample :
    emittedPrice (List.replicate 37 "" ++ ["12.5"]) = JVal.jstr "12.5" ∧
    specPrice (List.replicate 37 "" ++ ["12.5"]) = JVal.jnum ⟨125, -1⟩ ∧
    emittedPrice (List.replicate 37 "" ++ ["12.5"]) ≠
      specPrice (List.replicate 37 "" ++ ["12.5"]) := by
  exact ⟨by decide, by decide, by decide⟩

/-- Claim C8: both image-proxy variants return 400 when the identifying parameter
is missing; the url-variant returns 400 when the scheme test fails (in
particular for `ftp://`); on a non-ok upstream response the id-variant
returns 502 and the url-variant relays the upstream status (a plain error
body, never a substituted placeholder image); on success both return 200
with the upstream bytes base64-encoded, the upstream content type defaulting
to image/jpeg when absent, and the long-lived public cache header. -/
theorem c8_imageProxy :
    (∀ fetch : String → UpstreamResp,
      (imageProxyIdHandler none fetch).statusCode = 400 ∧
      (imageProxyUrlHandler none fetch).statusCode = 400) ∧
    (∀ (u : String) (fetch : String → UpstreamResp), schemeOk u = false →
      (imageProxyUrlHandler (some u) fetch).statusCode = 400) ∧
    schemeOk "ftp://example.com/a.png" = false ∧
    (∀ (u : String) (fetch : String → UpstreamResp), u ≠ "" → schemeOk u = true →
      (fetch u).ok = false →
      imageProxyUrlHandler (some u) fetch =
        ⟨(fetch u).status, none, none,
          "Upstream error: " ++ toString (fetch u).status ++ " " ++ (fetch u).statusText,
          false⟩) ∧
    (∀ (id : String) (fetch : String → UpstreamResp), id ≠ "" →
      (fetch (driveThumbFetchUrl id)).ok = false →
      (imageProxyIdHandler (some id) fetch).statusCode = 502) ∧
    (∀ (u : String) (fetch : String → UpstreamResp), u ≠ "" → schemeOk u = true →
      (fetch u).ok = true →
      imageProxyUrlHandler (some u) fetch =
        ⟨200,
          some (match (fetch u).contentType with
            | some ct => if ct = "" then "image/jpeg" else ct
            | none => "image/jpeg"),
          some "public, max-age=86400", base64Encode (fetch u).bodyBytes, true⟩) ∧
    (∀ (id : String) (fetch : String → UpstreamResp), id ≠ "" →
      (fetch (driveThumbFetchUrl id)).ok = true →
      imageProxyIdHandler (some id) fetch =
        ⟨200,
          some (match (fetch (driveThumbFetchUrl id)).contentType with
            | some ct => if ct = "" then "image/jpeg" else ct
            | none => "image/jpeg"),
          some "public, max-age=86400",
          base64Encode (fetch (driveThumbFetchUrl id)).bodyBytes, true⟩) := by
  refine ⟨?_, ?_, by decide, ?_, ?_, ?_, ?_⟩
  · intro fetch
    exact ⟨rfl, rfl⟩
  · intro u fetch h
    by_cases hu : u = ""
    · simp [imageProxyUrlHandler, hu]
    · simp [imageProxyUrlHandler, hu, h]
  · intro u fetch hu hs hok
    simp [imageProxyUrlHandler, hu, hs, hok]
  · intro id fetch hid hok
    simp [imageProxyIdHandler, hid, hok]
  · intro u fetch hu hs hok
    simp [imageProxyUrlHandler, hu, hs, hok]
  · intro id fetch hid hok
    simp [imageProxyIdHandler, hid, hok]

/-- Witness for C8: a successful relay through the url-variant at a concrete
upstream response. -/
theorem c8_witness :
    imageProxyUrlHandler (some "http://example.com/a.png")
        (fun _ => ⟨true, 200, "OK", none, [1, 2, 3]⟩) =
      ⟨200, some "image/jpeg", some "public, max-age=86400", "AQID", true⟩ := by
  have h := c8_imageProxy.2.2.2.2.2.1 "http://example.com/a.png"
    (fun _ => ⟨true, 200, "OK", none, [1, 2, 3]⟩) (by decide) (by decide) rfl
  simpa using h

/-! ## Order lemmas for the comparator (claim C3) -/

theorem decVal_eq_scaled (a : Dec10) (e : Int) (he : e ≤ a.e) :
    decVal a = ((a.m * 10 ^ (a.e - e).toNat : Int) : Rat) * (10 : Rat) ^ e := by
  have hten : (10 : Rat) ≠ 0 := by norm_num
  have hsplit : a.e = ((a.e - e).toNat : Int) + e := by omega
  calc decVal a = (a.m : Rat) * (10 : Rat) ^ a.e := rfl
    _ = (a.m : Rat) * ((10 : Rat) ^ ((a.e - e).toNat : Int) * (10 : Rat) ^ e) := by
        rw [← zpow_add₀ hten, ← hsplit]
    _ = ((a.m * 10 ^ (a.e - e).toNat : Int) : Rat) * (10 : Rat) ^ e := by
        push_cast
        rw [zpow_natCast]
        ring

theorem decCmp_le_iff (a b : Dec10) : decCmp a b ≤ 0 ↔ decVal a ≤ decVal b := by
  have hxa := decVal_eq_scaled a (min a.e b.e) (min_le_left _ _)
  have hxb := decVal_eq_scaled b (min a.e b.e) (min_le_right _ _)
  have hpos : (0 : Rat) < (10 : Rat) ^ (min a.e b.e) := zpow_pos (by norm_num) _
  constructor
  · intro h
    rw [hxa, hxb]
    apply mul_le_mul_of_nonneg_right _ (le_of_lt hpos)
    have hxy : a.m * 10 ^ (a.e - min a.e b.e).toNat ≤ b.m * 10 ^ (b.e - min a.e b.e).toNat := by
      by_contra hc
      push_neg at hc
      have h1 : ¬ (a.m * 10 ^ (a.e - min a.e b.e).toNat <
          b.m * 10 ^ (b.e - min a.e b.e).toNat) := not_lt_of_gt hc
      simp only [decCmp, h1, if_false, if_pos hc] at h
      omega
    exact_mod_cast hxy
  · intro h
    rw [hxa, hxb] at h
    have hxy : ((a.m * 10 ^ (a.e - min a.e b.e).toNat : Int) : Rat) ≤
        ((b.m * 10 ^ (b.e - min a.e b.e).toNat : Int) : Rat) :=
      le_of_mul_le_mul_right h hpos
    have hxy2 : a.m * 10 ^ (a.e - min a.e b.e).toNat ≤
        b.m * 10 ^ (b.e - min a.e b.e).toNat := by exact_mod_cast hxy
    simp only [decCmp]
    split_ifs with h1 h2
    · omega
    · omega
    · omega

theorem cmpNum_le_total (u v : JsNum) (hu : notNaN u = true) (hv : notNaN v = true) :
    cmpNum u v ≤ 0 ∨ cmpNum v u ≤ 0 := by
  cases u with
  | nan => simp [notNaN] at hu
  | inf s =>
    cases v with
    | nan => simp [notNaN] at hv
    | inf t => cases s <;> cases t <;> simp [cmpNum]
    | num d => cases s <;> simp [cmpNum]
  | num c =>
    cases v with
    | nan => simp [notNaN] at hv
    | inf t => cases t <;> simp [cmpNum]
    | num d =>
      simp only [cmpNum, decCmp_le_iff]
      exact le_total (decVal c) (decVal d)

theorem cmpNum_le_trans (u v w : JsNum) (hu : notNaN u = true) (hv : notNaN v = true)
    (hw : notNaN w = true) (h1 : cmpNum u v ≤ 0) (h2 : cmpNum v w ≤ 0) :
    cmpNum u w ≤ 0 := by
  cases u with
  | nan => simp [notNaN] at hu
  | inf s =>
    cases w with
    | nan => simp [notNaN] at hw
    | inf t =>
      cases v with
      | nan => simp [notNaN] at hv
      | inf r => cases s <;> cases r <;> cases t <;> simp_all [cmpNum]
      | num d => cases s <;> cases t <;> simp_all [cmpNum]
    | num d =>
      cases v with
      | nan => simp [notNaN] at hv
      | inf r => cases s <;> cases r <;> simp_all [cmpNum]
      | num c => cases s <;> simp_all [cmpNum]
  | num c =>
    cases w with
    | nan => simp [notNaN] at hw
    | inf t =>
      cases t
      · simp [cmpNum]
      · cases v with
        | nan => simp [notNaN] at hv
        | inf r => cases r <;> simp_all [cmpNum]
        | num d => simp_all [cmpNum]
    | num d =>
      cases v with
      | nan => simp [notNaN] at hv
      | inf r => cases r <;> simp_all [cmpNum]
      | num e =>
        simp only [cmpNum, decCmp_le_iff] at h1 h2 ⊢
        exact le_trans h1 h2

/-! ## Permutation, membership and sortedness of the embedded sort -/

theorem perm_insertLe (le : String → String → Bool) (a : String) (l : List String) :
    List.Perm (insertLe le a l) (a :: l) := by
  induction l with
  | nil => exact List.Perm.refl _
  | cons b t ih =>
    by_cases h : le a b
    · simp [insertLe, h]
    · simp only [insertLe, h, Bool.false_eq_true, if_false]
      exact (ih.cons b).trans (List.Perm.swap a b t)

theorem perm_sortLe (le : String → String → Bool) (l : List String) :
    List.Perm (sortLe le l) l := by
  induction l with
  | nil => exact List.Perm.refl _
  | cons a t ih => exact (perm_insertLe le a (sortLe le t)).trans (ih.cons a)

theorem pairwise_insertLe (le : String → String → Bool) (R : String → String → Prop)
    (E : List String) (a : String) (l : List String)
    (haE : a ∈ E) (hlE : ∀ x ∈ l, x ∈ E)
    (hle : ∀ x ∈ E, ∀ y ∈ E, (le x y = true ↔ R x y))
    (htot : ∀ x ∈ E, ∀ y ∈ E, R x y ∨ R y x)
    (htrans : ∀ x ∈ E, ∀ y ∈ E, ∀ z ∈ E, R x y → R y z → R x z)
    (hpw : l.Pairwise R) :
    (insertLe le a l).Pairwise R := by
  induction l with
  | nil => simp [insertLe]
  | cons b t ih =>
    have hbE : b ∈ E := hlE b (by simp)
    have htE : ∀ x ∈ t, x ∈ E := fun x hx => hlE x (by simp [hx])
    rw [List.pairwise_cons] at hpw
    by_cases h : le a b
    · have hab : R a b := (hle a haE b hbE).mp h
      simp only [insertLe, h, if_true]
      refine List.Pairwise.cons ?_ (List.Pairwise.cons hpw.1 hpw.2)
      intro x hx
      rcases List.mem_cons.mp hx with rfl | hx2
      · exact hab
      · exact htrans a haE b hbE x (htE x hx2) hab (hpw.1 x hx2)
    · have hba : R b a := by
        have : ¬ R a b := fun hr => h ((hle a haE b hbE).mpr hr)
        rcases htot a haE b hbE with h' | h'
        · exact absurd h' this
        · exact h'
      simp only [insertLe, h, Bool.false_eq_true, if_false]
      refine List.Pairwise.cons ?_ (ih htE hpw.2)
      intro x hx
      have hx2 : x ∈ a :: t := (perm_insertLe le a t).mem_iff.mp hx
      rcases List.mem_cons.mp hx2 with rfl | hx3
      · exact hba
      · exact hpw.1 x hx3

theorem pairwise_sortLe (le : String → String → Bool) (R : String → String → Prop)
    (E : List String) (l : List String) (hlE : ∀ x ∈ l, x ∈ E)
    (hle : ∀ x ∈ E, ∀ y ∈ E, (le x y = true ↔ R x y))
    (htot : ∀ x ∈ E, ∀ y ∈ E, R x y ∨ R y x)
    (htrans : ∀ x ∈ E, ∀ y ∈ E, ∀ z ∈ E, R x y → R y z → R x z) :
    (sortLe le l).Pairwise R := by
  induction l with
  | nil => exact List.Pairwise.nil
  | cons a t ih =>
    have haE : a ∈ E := hlE a (by simp)
    have htE : ∀ x ∈ t, x ∈ E := fun x hx => hlE x (by simp [hx])
    exact pairwise_insertLe le R E a (sortLe le t) haE
      (fun x hx => htE x ((perm_sortLe le t).mem_iff.mp hx)) hle htot htrans (ih htE)

/-! ## Deduplication lemmas -/

theorem dedupFirstAux_subset (seen : List String) (l : List String) :
    ∀ x ∈ dedupFirstAux seen l, x ∈ l := by
  induction l generalizing seen with
  | nil => simp [dedupFirstAux]
  | cons a t ih =>
    intro x hx
    by_cases h : a ∈ seen
    · simp only [dedupFirstAux, h, if_pos] at hx
      exact List.mem_cons_of_mem a (ih seen x hx)
    · simp only [dedupFirstAux, h, if_false, List.mem_cons] at hx
      rcases hx with hx | hx
      · exact hx ▸ List.mem_cons_self a t
      · exact List.mem_cons_of_mem a (ih (a :: seen) x hx)

theorem dedupFirstAux_not_seen (seen : List String) (l : List String) :
    ∀ x ∈ dedupFirstAux seen l, x ∉ seen := by
  induction l generalizing seen with
  | nil => simp [dedupFirstAux]
  | cons a t ih =>
    intro x hx
    by_cases h : a ∈ seen
    · simp only [dedupFirstAux, h, if_pos] at hx
      exact ih seen x hx
    · simp only [dedupFirstAux, h, if_false, List.mem_cons] at hx
      rcases hx with hx | hx
      · exact hx ▸ h
      · intro hc
        exact ih (a :: seen) x hx (List.mem_cons_of_mem a hc)

theorem nodup_dedupFirstAux (seen : List String) (l : List String) :
    (dedupFirstAux seen l).Nodup := by
  induction l generalizing seen with
  | nil => exact List.nodup_nil
  | cons a t ih =>
    by_cases h : a ∈ seen
    · simpa only [dedupFirstAux, h, if_pos] using ih seen
    · simp only [dedupFirstAux, h, if_false]
      refine List.Nodup.cons ?_ (ih (a :: seen))
      intro hmem
      exact dedupFirstAux_not_seen (a :: seen) t a hmem (List.mem_cons_self a seen)

theorem nodup_dedupFirst (l : List String) : (dedupFirst l).Nodup :=
  nodup_dedupFirstAux [] l

theorem mem_optionValues_ne_empty (rows : List (List String)) :
    ∀ v ∈ optionValues rows, v ≠ "" := by
  intro v hv
  simp only [optionValues, List.mem_filter] at hv
  intro hc
  rw [hc] at hv
  simpa using hv.2

/-- Claim C3 (amended): the option extractor drops empty entries and deduplicates
keeping first occurrences, so the result has no duplicates and no blanks;
when every deduplicated value parses as a non-NaN number the result is
sorted numerically ascending; and on ["4", "2", "4", "", "8"] both variants
yield exactly ["2", "4", "8"].  (The sort comparator is applied per pair —
numeric when both members parse, collation otherwise — so an input mixing
numeric and non-numeric values is not sorted purely lexicographically; see
the counterexample.) -/
theorem c3_optionExtractor :
    (∀ rows : List (List String),
      (pinOptionsOf rows).Nodup ∧ ∀ v ∈ pinOptionsOf rows, v ≠ "") ∧
    (∀ rows : List (List String),
      (∀ v ∈ dedupFirst (optionValues rows), notNaN (jsNumber v) = true) →
      (pinOptionsOf rows).Pairwise (fun a b => cmpNum (jsNumber a) (jsNumber b) ≤ 0)) ∧
    pinOptionsOf [["4"], ["2"], ["4"], [""], ["8"]] = ["2", "4", "8"] ∧
    pinOptions2Of [["4"], ["2"], ["4"], [""], ["8"]] = ["2", "4", "8"] := by
  refine ⟨?_, ?_, by decide, by decide⟩
  · intro rows
    constructor
    · exact (perm_sortLe pinLe _).nodup_iff.mpr (nodup_dedupFirst (optionValues rows))
    · intro v hv
      have hv2 : v ∈ dedupFirst (optionValues rows) :=
        (perm_sortLe pinLe _).mem_iff.mp hv
      exact mem_optionValues_ne_empty rows v
        (dedupFirstAux_subset [] (optionValues rows) v hv2)
  · intro rows hall
    apply pairwise_sortLe pinLe _ (dedupFirst (optionValues rows)) _ (fun x hx => hx)
    · intro x hx y hy
      simp [pinLe, pinCmp, hall x hx, hall y hy]
    · intro x hx y hy
      exact cmpNum_le_total _ _ (hall x hx) (hall y hy)
    · intro x hx y hy z hz
      exact cmpNum_le_trans _ _ _ (hall x hx) (hall y hy) (hall z hz)

/-- Witness for C3 at a concrete all-numeric input. -/
theorem c3_witness :
    (pinOptionsOf [["4"], ["2"]]).Pairwise
      (fun a b => cmpNum (jsNumber a) (jsNumber b) ≤ 0) :=
  c3_optionExtractor.2.1 [["4"], ["2"]] (by decide)

/-- Claim C3 counterexample to the claim as stated: on the mixed input
["10", "2", "x"] not every value parses as a number, so the claim requires
the lexicographic order ["10", "2", "x"]; the first variant instead compares
"10" and "2" numerically and yields ["2", "10", "x"].  The second variant
compares everything numerically: on ["b", "a"] every comparison is NaN
(treated as 0), so the list stays ["b", "a"] instead of the lexicographic
["a", "b"]. -/
theorem c3_counterexample :
    pinOptionsOf [["10"], ["2"], ["x"]] = ["2", "10", "x"] ∧
    sortLe lexLe (dedupFirst (optionValues [["10"], ["2"], ["x"]])) = ["10", "2", "x"] ∧
    pinOptionsOf [["10"], ["2"], ["x"]] ≠
      sortLe lexLe (dedupFirst (optionValues [["10"], ["2"], ["x"]])) ∧
    pinOptions2Of [["b"], ["a"]] = ["b", "a"] ∧
    sortLe lexLe (dedupFirst (optionValues [["b"], ["a"]])) = ["a", "b"] := by
  exact ⟨by decide, by decide, by decide, by decide, by decide⟩

theorem driveExtract_eq_firstMatch (l : List Char) :
    driveExtract l =
      firstMatch [scanFirst (tryIdParamAt isIdChar), scanFirst tryFileDAt, tryBareId] l := by
  cases h1 : scanFirst (tryIdParamAt isIdChar) l <;>
    cases h2 : scanFirst tryFileDAt l <;>
    cases h3 : tryBareId l <;>
    simp [driveExtract, firstMatch, h1, h2, h3]

theorem normExtract_eq_firstMatch (l : List Char) :
    normExtract l =
      firstMatch [scanFirst (tryIdParamAt (fun x => !decide (x = '&'))),
        scanFirst tryFileD2At] l := by
  cases h1 : scanFirst (tryIdParamAt (fun x => !decide (x = '&'))) l <;>
    cases h2 : scanFirst tryFileD2At l <;>
    simp [normExtract, firstMatch, h1, h2]

/-- Claim C4 (amended): each resolver returns "" on empty input and
otherwise cleans the input (whitespace trim plus edge-quote strip).
`buildDriveThumbnailUrl` then tries, in priority order, the query-parameter
form, the path-segment form and the bare-identifier form — the first match
winning, exactly the spec-side `firstMatch` dispatch — and embeds the
extracted identifier in the thumbnail URL, returning the cleaned input
unchanged when nothing matches.  `normalizeDriveUrl`, by contrast, first
requires the cleaned input to contain the hosting domain, returning it
unchanged otherwise, and then tries only two alternatives — query-parameter
form, then path-segment form, with no bare-identifier alternative — as a
`firstMatch` dispatch, embedding an extracted identifier in the download URL
and falling back to the cleaned input when neither matches. -/
theorem c4_resolver (s : String) :
    (s = "" → buildDriveThumbnailUrl s = "" ∧ normalizeDriveUrl s = "") ∧
    (s ≠ "" →
      driveExtract (cleanRef s.toList) =
        firstMatch [scanFirst (tryIdParamAt isIdChar), scanFirst tryFileDAt, tryBareId]
          (cleanRef s.toList) ∧
      (driveExtract (cleanRef s.toList) = none →
        buildDriveThumbnailUrl s = String.mk (cleanRef s.toList)) ∧
      (∀ id : List Char, driveExtract (cleanRef s.toList) = some id →
        buildDriveThumbnailUrl s = String.mk (thumbPre ++ id ++ thumbSuf))) ∧
    (s ≠ "" →
      normExtract (cleanRef s.toList) =
        firstMatch [scanFirst (tryIdParamAt (fun x => !decide (x = '&'))),
          scanFirst tryFileD2At] (cleanRef s.toList) ∧
      (containsSeq drivePat (cleanRef s.toList) = false →
        normalizeDriveUrl s = String.mk (cleanRef s.toList)) ∧
      (∀ id : List Char, containsSeq drivePat (cleanRef s.toList) = true →
        normExtract (cleanRef s.toList) = some id →
        normalizeDriveUrl s = String.mk (dlPre ++ id ++ dlSuf)) ∧
      (containsSeq drivePat (cleanRef s.toList) = true →
        normExtract (cleanRef s.toList) = none →
        normalizeDriveUrl s = String.mk (cleanRef s.toList))) := by
  refine ⟨?_, ?_, ?_⟩
  · intro hs
    exact ⟨by simp [buildDriveThumbnailUrl, hs], by simp [normalizeDriveUrl, hs]⟩
  · intro hs
    refine ⟨driveExtract_eq_firstMatch _, ?_, ?_⟩
    · intro h
      have h' : driveExtract (cleanRef s.data) = none := h
      simp [buildDriveThumbnailUrl, hs, h']
    · intro id h
      have h' : driveExtract (cleanRef s.data) = some id := h
      simp [buildDriveThumbnailUrl, hs, h']
  · intro hs
    refine ⟨normExtract_eq_firstMatch _, ?_, ?_, ?_⟩
    · intro h
      have h' : containsSeq drivePat (cleanRef s.data) = false := h
      simp [normalizeDriveUrl, hs, h']
    · intro id hc h
      have hc' : containsSeq drivePat (cleanRef s.data) = true := hc
      have h' : normExtract (cleanRef s.data) = some id := h
      simp [normalizeDriveUrl, hs, hc', h']
    · intro hc h
      have hc' : containsSeq drivePat (cleanRef s.data) = true := hc
      have h' : normExtract (cleanRef s.data) = none := h
      simp [normalizeDriveUrl, hs, hc', h']

/-- Witness for C4: the query-parameter alternative wins on a concrete
Drive link. -/
theorem c4_witness :
    buildDriveThumbnailUrl "https://drive.google.com/uc?export=view&id=ABC123" =
      "https://drive.google.com/thumbnail?id=ABC123&sz=w400" := by
  have h := (c4_resolver "https://drive.google.com/uc?export=view&id=ABC123").2.1
    (by decide)
  exact (h.2.2 "ABC123".toList (by decide)).trans (by decide)

/-- Claim C4 counterexample to the claim as stated: there is no single
alternative list that both resolvers try.  On a bare 33-character identifier
`buildDriveThumbnailUrl` extracts it via the bare-identifier alternative and
embeds it, while `normalizeDriveUrl` — which has no bare-identifier
alternative and requires the hosting domain to occur in the input — returns
the very same token unchanged; likewise a `/file/d/` URL not mentioning the
domain is resolved by `buildDriveThumbnailUrl` through its path-segment
alternative but passes through `normalizeDriveUrl` unchanged. -/
theorem c4_counterexample :
    buildDriveThumbnailUrl "1DkJngqekuCgrFz0wF13MlOVPj59Zk3cj" =
      "https://drive.google.com/thumbnail?id=1DkJngqekuCgrFz0wF13MlOVPj59Zk3cj&sz=w400" ∧
    normalizeDriveUrl "1DkJngqekuCgrFz0wF13MlOVPj59Zk3cj" =
      "1DkJngqekuCgrFz0wF13MlOVPj59Zk3cj" ∧
    buildDriveThumbnailUrl "https://example.com/file/d/ABCDEFG/view" =
      "https://drive.google.com/thumbnail?id=ABCDEFG&sz=w400" ∧
    normalizeDriveUrl "https://example.com/file/d/ABCDEFG/view" =
      "https://example.com/file/d/ABCDEFG/view" := by
  exact ⟨by decide, by decide, by decide, by decide⟩

/-! ## Cleanup lemmas for claim C10 (idempotence of the resolvers) -/

theorem dropWhile_length_le (p : Char → Bool) (l : List Char) :
    (l.dropWhile p).length ≤ l.length := by
  induction l with
  | nil => simp
  | cons c rest ih =>
    by_cases h : p c
    · rw [List.dropWhile_cons_of_pos h]
      exact Nat.le_succ_of_le ih
    · simp [List.dropWhile_cons_of_neg h]

theorem dropWhile_idem (p : Char → Bool) (l : List Char) :
    (l.dropWhile p).dropWhile p = l.dropWhile p := by
  induction l with
  | nil => rfl
  | cons c rest ih =>
    by_cases h : p c
    · simpa [List.dropWhile_cons_of_pos h] using ih
    · simp [List.dropWhile_cons_of_neg h]

theorem dropTrail_idem (p : Char → Bool) (l : List Char) :
    dropTrail p (dropTrail p l) = dropTrail p l := by
  simp [dropTrail, dropWhile_idem]

theorem dropWhile_fix_head (p : Char → Bool) (c : Char) (rest : List Char)
    (h : (c :: rest).dropWhile p = c :: rest) : p c = false := by
  by_contra hc
  have hpc : p c = true := by
    cases hp : p c
    · exact absurd hp hc
    · rfl
  rw [List.dropWhile_cons_of_pos hpc] at h
  have hle := dropWhile_length_le p rest
  have hlen : (List.dropWhile p rest).length = rest.length + 1 := by
    rw [h]
    rfl
  omega

theorem dropWhile_dropTrail_of_fix (p : Char → Bool) (l : List Char)
    (h : l.dropWhile p = l) : (dropTrail p l).dropWhile p = dropTrail p l := by
  cases l with
  | nil => rfl
  | cons c rest =>
    have hc : p c = false := dropWhile_fix_head p c rest h
    have hrev : (c :: rest).reverse = rest.reverse ++ [c] := by simp
    rw [dropTrail, hrev, List.dropWhile_append]
    by_cases he : (rest.reverse.dropWhile p).isEmpty
    · simp [he, List.dropWhile_cons, hc]
    · simp [he, List.dropWhile_cons, hc, List.reverse_append]

theorem trimList_idem (l : List Char) : trimList (trimList l) = trimList l := by
  unfold trimList
  rw [dropWhile_dropTrail_of_fix isWs (l.dropWhile isWs) (dropWhile_idem isWs l)]
  exact dropTrail_idem isWs (l.dropWhile isWs)

theorem all_dropWhile (q p : Char → Bool) (l : List Char) (h : l.all q = true) :
    (l.dropWhile p).all q = true := by
  induction l with
  | nil => simp
  | cons c rest ih =>
    rw [List.all_cons, Bool.and_eq_true] at h
    by_cases hp : p c
    · rw [List.dropWhile_cons_of_pos hp]
      exact ih h.2
    · rw [List.dropWhile_cons_of_neg hp, List.all_cons, h.1]
      simpa using h.2

theorem all_dropTrail (q p : Char → Bool) (l : List Char) (h : l.all q = true) :
    (dropTrail p l).all q = true := by
  unfold dropTrail
  rw [List.all_reverse]
  exact all_dropWhile q p l.reverse (by rwa [List.all_reverse])

theorem all_trimList (q : Char → Bool) (l : List Char) (h : l.all q = true) :
    (trimList l).all q = true :=
  all_dropTrail q isWs _ (all_dropWhile q isWs l h)

theorem all_stripEdgeQuotes (q : Char → Bool) (l : List Char) (h : l.all q = true) :
    (stripEdgeQuotes l).all q = true :=
  all_dropTrail q isQuoteChar _ (all_dropWhile q isQuoteChar l h)

theorem all_cleanRef (q : Char → Bool) (l : List Char) (h : l.all q = true) :
    (cleanRef l).all q = true :=
  all_stripEdgeQuotes q _ (all_trimList q l h)

theorem all_takeWhile_of_all (q p : Char → Bool) (l : List Char) (h : l.all q = true) :
    (l.takeWhile p).all q = true := by
  induction l with
  | nil => simp
  | cons c rest ih =>
    rw [List.all_cons, Bool.and_eq_true] at h
    by_cases hp : p c
    · rw [List.takeWhile_cons_of_pos hp, List.all_cons, h.1]
      simpa using ih h.2
    · rw [List.takeWhile_cons_of_neg hp]
      rfl

theorem all_takeWhile_self (p : Char → Bool) (l : List Char) :
    (l.takeWhile p).all p = true := by
  induction l with
  | nil => simp
  | cons c rest ih =>
    by_cases hp : p c
    · rw [List.takeWhile_cons_of_pos hp, List.all_cons, hp]
      simp [ih]
    · rw [List.takeWhile_cons_of_neg hp]
      rfl

theorem dropWhile_eq_self_of_all (p : Char → Bool) (l : List Char)
    (h : l.all (fun c => !p c) = true) : l.dropWhile p = l := by
  cases l with
  | nil => rfl
  | cons c rest =>
    rw [List.all_cons, Bool.and_eq_true] at h
    exact List.dropWhile_cons_of_neg (by simpa using h.1)

theorem dropTrail_eq_self_of_all (p : Char → Bool) (l : List Char)
    (h : l.all (fun c => !p c) = true) : dropTrail p l = l := by
  unfold dropTrail
  rw [dropWhile_eq_self_of_all p l.reverse (by rwa [List.all_reverse]), List.reverse_reverse]

theorem stripEdgeQuotes_eq_self_of_all (l : List Char)
    (h : l.all (fun c => !isQuoteChar c) = true) : stripEdgeQuotes l = l := by
  unfold stripEdgeQuotes
  rw [dropWhile_eq_self_of_all isQuoteChar l h, dropTrail_eq_self_of_all isQuoteChar l h]

/-- On a quote-free input the cleanup is just the whitespace trim, and the
result is a fixed point of the cleanup. -/
theorem cleanRef_of_noQuote (l : List Char) (h : l.all (fun c => !isQuoteChar c) = true) :
    cleanRef l = trimList l ∧ cleanRef (trimList l) = trimList l := by
  have htq : (trimList l).all (fun c => !isQuoteChar c) = true := all_trimList _ l h
  constructor
  · exact stripEdgeQuotes_eq_self_of_all (trimList l) htq
  · rw [cleanRef, trimList_idem, stripEdgeQuotes_eq_self_of_all (trimList l) htq]

/-! ## Scanner lemmas for claim C10 -/

theorem tryIdParamAt_head_none (cls : Char → Bool) (c : Char) (l : List Char)
    (hq : c ≠ '?') (ha : c ≠ '&') : tryIdParamAt cls (c :: l) = none := by
  simp [tryIdParamAt, hq, ha]

theorem tryFileDAt_head_none (c : Char) (l : List Char) (h : c ≠ '/') :
    tryFileDAt (c :: l) = none := by
  simp [tryFileDAt, h]

theorem tryFileD2At_head_none (c : Char) (l : List Char) (h : c ≠ '/') :
    tryFileD2At (c :: l) = none := by
  simp [tryFileD2At, h]

theorem scanFirst_append_skip (tryAt : List Char → Option (List Char)) (g : Char → Bool)
    (hguard : ∀ (c : Char) (l : List Char), g c = false → tryAt (c :: l) = none)
    (a b : List Char) (ha : a.all (fun c => !g c) = true) :
    scanFirst tryAt (a ++ b) = scanFirst tryAt b := by
  induction a with
  | nil => rfl
  | cons c rest ih =>
    rw [List.all_cons, Bool.and_eq_true] at ha
    have hg : g c = false := by simpa using ha.1
    show scanFirst tryAt (c :: (rest ++ b)) = scanFirst tryAt b
    rw [scanFirst, hguard c (rest ++ b) hg]
    exact ih ha.2

theorem scanFirst_some (tryAt : List Char → Option (List Char)) (l r : List Char)
    (h : scanFirst tryAt l = some r) :
    ∃ l', (∀ q : Char → Bool, l.all q = true → l'.all q = true) ∧ tryAt l' = some r := by
  induction l with
  | nil => simp [scanFirst] at h
  | cons c rest ih =>
    rw [scanFirst] at h
    cases ht : tryAt (c :: rest) with
    | some r2 =>
      rw [ht] at h
      simp only [Option.some.injEq] at h
      exact ⟨c :: rest, fun q hq => hq, by rw [ht, h]⟩
    | none =>
      rw [ht] at h
      obtain ⟨l', hsub, htry⟩ := ih h
      refine ⟨l', fun q hq => ?_, htry⟩
      rw [List.all_cons, Bool.and_eq_true] at hq
      exact hsub q hq.2

theorem tryIdParamAt_some (cls : Char → Bool) (l r : List Char)
    (h : tryIdParamAt cls l = some r) : r ≠ [] ∧ r.all cls = true := by
  cases l with
  | nil => simp [tryIdParamAt] at h
  | cons c rest =>
    simp only [tryIdParamAt] at h
    split at h
    · split at h
      · split at h
        · simp at h
        · next hne =>
          simp only [Option.some.injEq] at h
          subst h
          exact ⟨hne, all_takeWhile_self cls _⟩
      · simp at h
    · simp at h

theorem tryFileDAt_some (l r : List Char) (h : tryFileDAt l = some r) :
    r ≠ [] ∧ r.all isIdChar = true := by
  cases l with
  | nil => simp [tryFileDAt] at h
  | cons c rest =>
    simp only [tryFileDAt] at h
    split at h
    · split at h
      · split at h
        · simp at h
        · next hne =>
          simp only [Option.some.injEq] at h
          subst h
          exact ⟨hne, all_takeWhile_self isIdChar _⟩
      · simp at h
    · simp at h

theorem tryBareId_some (l r : List Char) (h : tryBareId l = some r) :
    r ≠ [] ∧ r.all isIdChar = true := by
  simp only [tryBareId] at h
  split at h
  · next hcond =>
    rw [Bool.and_eq_true] at hcond
    simp only [Option.some.injEq] at h
    subst h
    refine ⟨?_, hcond.1⟩
    intro hnil
    subst hnil
    have := hcond.2
    simp at this
  · simp at h

theorem tryFileD2At_some (l r : List Char) (h : tryFileD2At l = some r) :
    r ≠ [] ∧ ∀ q : Char → Bool, l.all q = true → r.all q = true := by
  cases l with
  | nil => simp [tryFileD2At] at h
  | cons c rest =>
    simp only [tryFileD2At] at h
    split at h
    · split at h
      · next rest2 =>
        split at h
        · simp at h
        · next hne =>
          simp only [Option.some.injEq] at h
          subst h
          refine ⟨hne, fun q hq => ?_⟩
          rw [List.all_cons, Bool.and_eq_true] at hq
          have h2 := hq.2
          repeat rw [List.all_cons, Bool.and_eq_true] at h2
          exact all_takeWhile_of_all q _ _ h2.2.2.2.2.2.2.2
      · simp at h
    · simp at h

theorem driveExtract_some (l r : List Char) (h : driveExtract l = some r) :
    r ≠ [] ∧ r.all isIdChar = true := by
  simp only [driveExtract] at h
  cases h1 : scanFirst (tryIdParamAt isIdChar) l with
  | some x =>
    rw [h1] at h
    simp only [Option.some.injEq] at h
    subst h
    obtain ⟨l', _, htry⟩ := scanFirst_some _ _ _ h1
    exact tryIdParamAt_some isIdChar l' x htry
  | none =>
    rw [h1] at h
    cases h2 : scanFirst tryFileDAt l with
    | some x =>
      rw [h2] at h
      simp only [Option.some.injEq] at h
      subst h
      obtain ⟨l', _, htry⟩ := scanFirst_some _ _ _ h2
      exact tryFileDAt_some l' x htry
    | none =>
      rw [h2] at h
      exact tryBareId_some l r h

theorem normExtract_some (l r : List Char) (h : normExtract l = some r)
    (hl : l.all (fun c => !decide (c = '&')) = true) :
    r ≠ [] ∧ r.all (fun c => !decide (c = '&')) = true := by
  simp only [normExtract] at h
  cases h1 : scanFirst (tryIdParamAt (fun x => !decide (x = '&'))) l with
  | some x =>
    rw [h1] at h
    simp only [Option.some.injEq] at h
    subst h
    obtain ⟨l', _, htry⟩ := scanFirst_some _ _ _ h1
    exact tryIdParamAt_some _ l' x htry
  | none =>
    rw [h1] at h
    obtain ⟨l', hsub, htry⟩ := scanFirst_some _ _ _ h
    obtain ⟨hne, hpres⟩ := tryFileD2At_some l' r htry
    exact ⟨hne, hpres _ (hsub _ hl)⟩

/-! ## Fixed-point lemmas for the built URLs (claim C10) -/

theorem takeWhile_append_of_all (p : Char → Bool) (a : List Char) (c : Char) (b : List Char)
    (ha : a.all p = true) (hc : p c = false) : (a ++ c :: b).takeWhile p = a := by
  induction a with
  | nil => simp [List.takeWhile_cons_of_neg (by simp [hc] : ¬ p c = true)]
  | cons x rest ih =>
    rw [List.all_cons, Bool.and_eq_true] at ha
    rw [List.cons_append, List.takeWhile_cons_of_pos ha.1, ih ha.2]

theorem stringMk_ne_empty (l : List Char) (h : l ≠ []) : String.mk l ≠ "" := by
  intro hc
  apply h
  have h2 := congrArg String.data hc
  simpa using h2

theorem dropTrail_last (p : Char → Bool) (Y : List Char) (d : Char) (h : p d = false) :
    dropTrail p (Y ++ [d]) = Y ++ [d] := by
  unfold dropTrail
  rw [List.reverse_append]
  simp only [List.reverse_cons, List.reverse_nil, List.nil_append, List.singleton_append]
  rw [List.dropWhile_cons_of_neg (by simp [h])]
  simp

theorem cleanRef_eq_self_edge (c d : Char) (X Y l : List Char)
    (hhd : l = c :: X) (hlast : l = Y ++ [d])
    (hc1 : isWs c = false) (hc2 : isQuoteChar c = false)
    (hd1 : isWs d = false) (hd2 : isQuoteChar d = false) :
    cleanRef l = l := by
  have htrim : trimList l = l := by
    unfold trimList
    rw [hhd, List.dropWhile_cons_of_neg (by simp [hc1]), ← hhd, hlast,
      dropTrail_last isWs Y d hd1, ← hlast]
  have hstrip : stripEdgeQuotes l = l := by
    unfold stripEdgeQuotes
    rw [hhd, List.dropWhile_cons_of_neg (by simp [hc2]), ← hhd, hlast,
      dropTrail_last isQuoteChar Y d hd2, ← hlast]
  rw [cleanRef, htrim, hstrip]

theorem driveExtract_thumb (id : List Char) (hne : id ≠ [])
    (hall : id.all isIdChar = true) :
    driveExtract (thumbPre ++ id ++ thumbSuf) = some id := by
  have hsplit : thumbPre ++ id ++ thumbSuf =
      "https://drive.google.com/thumbnail".toList ++
        ('?' :: 'i' :: 'd' :: '=' :: (id ++ thumbSuf)) := by
    rw [show thumbPre = "https://drive.google.com/thumbnail".toList ++ ['?', 'i', 'd', '=']
      from by decide]
    simp
  have htake : (id ++ thumbSuf).takeWhile isIdChar = id := by
    rw [show thumbSuf = '&' :: "sz=w400".toList from by decide]
    exact takeWhile_append_of_all isIdChar id '&' _ hall (by decide)
  have hscan : scanFirst (tryIdParamAt isIdChar) (thumbPre ++ id ++ thumbSuf) = some id := by
    rw [hsplit, scanFirst_append_skip (tryIdParamAt isIdChar)
      (fun c => decide (c = '?') || decide (c = '&'))
      (fun c l h => by
        simp at h
        exact tryIdParamAt_head_none isIdChar c l h.1 h.2)
      _ _ (by decide)]
    rw [scanFirst]
    have htry : tryIdParamAt isIdChar ('?' :: 'i' :: 'd' :: '=' :: (id ++ thumbSuf)) =
        some id := by
      simp [tryIdParamAt, htake, hne]
    rw [htry]
  simp only [List.append_assoc] at hscan
  simp [driveExtract, hscan]

theorem build_fixed_of_id (id : List Char) (hne : id ≠ [])
    (hall : id.all isIdChar = true) :
    buildDriveThumbnailUrl (String.mk (thumbPre ++ id ++ thumbSuf)) =
      String.mk (thumbPre ++ id ++ thumbSuf) := by
  have hhd : thumbPre ++ id ++ thumbSuf =
      'h' :: ("ttps://drive.google.com/thumbnail?id=".toList ++ id ++ thumbSuf) := by
    rw [show thumbPre = 'h' :: "ttps://drive.google.com/thumbnail?id=".toList from by decide]
    simp
  have hlast : thumbPre ++ id ++ thumbSuf = (thumbPre ++ id ++ "&sz=w40".toList) ++ ['0'] := by
    rw [show thumbSuf = "&sz=w40".toList ++ ['0'] from by decide]
    simp
  have hne' : String.mk (thumbPre ++ id ++ thumbSuf) ≠ "" := by
    apply stringMk_ne_empty
    rw [hhd]
    simp
  have hts : (String.mk (thumbPre ++ id ++ thumbSuf)).toList = thumbPre ++ id ++ thumbSuf :=
    rfl
  have hclean : cleanRef (thumbPre ++ id ++ thumbSuf) = thumbPre ++ id ++ thumbSuf :=
    cleanRef_eq_self_edge 'h' '0' _ _ _ hhd hlast (by decide) (by decide) (by decide)
      (by decide)
  have hex := driveExtract_thumb id hne hall
  simp only [List.append_assoc] at hne' hts hclean hex
  simp [buildDriveThumbnailUrl, hne', hts, hclean, hex]

theorem normExtract_dl (id : List Char) (hne : id ≠ [])
    (hall : id.all (fun c => !decide (c = '&')) = true) :
    normExtract (dlPre ++ id ++ dlSuf) = some id := by
  have hsplit : dlPre ++ id ++ dlSuf =
      "https://drive.usercontent.google.com/download".toList ++
        ('?' :: 'i' :: 'd' :: '=' :: (id ++ dlSuf)) := by
    rw [show dlPre = "https://drive.usercontent.google.com/download".toList ++
      ['?', 'i', 'd', '='] from by decide]
    simp
  have htake : (id ++ dlSuf).takeWhile (fun c => !decide (c = '&')) = id := by
    rw [show dlSuf = '&' :: "export=view".toList from by decide]
    exact takeWhile_append_of_all _ id '&' _ hall (by decide)
  have hscan : scanFirst (tryIdParamAt (fun c => !decide (c = '&')))
      (dlPre ++ id ++ dlSuf) = some id := by
    rw [hsplit, scanFirst_append_skip (tryIdParamAt (fun c => !decide (c = '&')))
      (fun c => decide (c = '?') || decide (c = '&'))
      (fun c l h => by
        simp at h
        exact tryIdParamAt_head_none _ c l h.1 h.2)
      _ _ (by decide)]
    rw [scanFirst]
    have htry : tryIdParamAt (fun c => !decide (c = '&'))
        ('?' :: 'i' :: 'd' :: '=' :: (id ++ dlSuf)) = some id := by
      simp [tryIdParamAt, htake, hne]
    rw [htry]
  simp only [List.append_assoc] at hscan
  simp [normExtract, hscan]

theorem norm_fixed_of_id (id : List Char) (hne : id ≠ [])
    (hall : id.all (fun c => !decide (c = '&')) = true) :
    normalizeDriveUrl (String.mk (dlPre ++ id ++ dlSuf)) =
      String.mk (dlPre ++ id ++ dlSuf) := by
  have hhd : dlPre ++ id ++ dlSuf =
      'h' :: ("ttps://drive.usercontent.google.com/download?id=".toList ++ id ++ dlSuf) := by
    rw [show dlPre = 'h' :: "ttps://drive.usercontent.google.com/download?id=".toList
      from by decide]
    simp
  have hlast : dlPre ++ id ++ dlSuf = (dlPre ++ id ++ "&export=vie".toList) ++ ['w'] := by
    rw [show dlSuf = "&export=vie".toList ++ ['w'] from by decide]
    simp
  have hne' : String.mk (dlPre ++ id ++ dlSuf) ≠ "" := by
    apply stringMk_ne_empty
    rw [hhd]
    simp
  have hts : (String.mk (dlPre ++ id ++ dlSuf)).toList = dlPre ++ id ++ dlSuf := rfl
  have hclean : cleanRef (dlPre ++ id ++ dlSuf) = dlPre ++ id ++ dlSuf :=
    cleanRef_eq_self_edge 'h' 'w' _ _ _ hhd hlast (by decide) (by decide) (by decide)
      (by decide)
  have hex := normExtract_dl id hne hall
  by_cases hc : containsSeq drivePat (dlPre ++ id ++ dlSuf)
  · simp only [List.append_assoc] at hne' hts hclean hex hc
    simp [normalizeDriveUrl, hne', hts, hclean, hc, hex]
  · simp only [List.append_assoc] at hne' hts hclean hc
    simp [normalizeDriveUrl, hne', hts, hclean, hc]

theorem build_mk_fixed (t : List Char) (hfix : cleanRef t = t)
    (h : driveExtract t = none) :
    buildDriveThumbnailUrl (String.mk t) = String.mk t := by
  by_cases ht : t = []
  · subst ht
    rfl
  · have hmkne : String.mk t ≠ "" := stringMk_ne_empty t ht
    have hts : (String.mk t).toList = t := rfl
    simp [buildDriveThumbnailUrl, hmkne, hts, hfix, h]

theorem norm_mk_fixed (t : List Char) (hfix : cleanRef t = t)
    (h : containsSeq drivePat t = false ∨ normExtract t = none) :
    normalizeDriveUrl (String.mk t) = String.mk t := by
  by_cases ht : t = []
  · subst ht
    rfl
  · have hmkne : String.mk t ≠ "" := stringMk_ne_empty t ht
    have hts : (String.mk t).toList = t := rfl
    rcases h with h | h
    · simp [normalizeDriveUrl, hmkne, hts, hfix, h]
    · by_cases hcont : containsSeq drivePat t
      · simp [normalizeDriveUrl, hmkne, hts, hfix, hcont, h]
      · simp [normalizeDriveUrl, hmkne, hts, hfix, hcont]

/-- Claim C10 (amended): `buildDriveThumbnailUrl` is idempotent on every input
containing no quote character, and `normalizeDriveUrl` is idempotent on every
input containing neither a quote character nor `&`.  (In general neither
function is idempotent: stripping edge quotes can expose surrounding
whitespace that only the second pass trims, and an extracted `[^/]+` path
identifier containing both the hosting domain and `&` re-enters extraction
with a shorter capture — see the counterexample.) -/
theorem c10_idempotent :
    (∀ s : String, s.toList.all (fun c => !isQuoteChar c) = true →
      buildDriveThumbnailUrl (buildDriveThumbnailUrl s) = buildDriveThumbnailUrl s) ∧
    (∀ s : String, s.toList.all (fun c => !isQuoteChar c) = true →
      s.toList.all (fun c => !decide (c = '&')) = true →
      normalizeDriveUrl (normalizeDriveUrl s) = normalizeDriveUrl s) := by
  constructor
  · intro s hq
    by_cases hs : s = ""
    · simp [buildDriveThumbnailUrl, hs]
    · obtain ⟨hc1, hc2⟩ := cleanRef_of_noQuote s.toList hq
      cases hex : driveExtract (cleanRef s.toList) with
      | some id =>
        obtain ⟨hne, hall⟩ := driveExtract_some _ _ hex
        have hex' : driveExtract (cleanRef s.data) = some id := hex
        have hb : buildDriveThumbnailUrl s = String.mk (thumbPre ++ id ++ thumbSuf) := by
          simp [buildDriveThumbnailUrl, hs, hex']
        rw [hb, build_fixed_of_id id hne hall]
      | none =>
        have hex' : driveExtract (cleanRef s.data) = none := hex
        have hb : buildDriveThumbnailUrl s = String.mk (cleanRef s.toList) := by
          simp [buildDriveThumbnailUrl, hs, hex']
        have hfix : cleanRef (cleanRef s.toList) = cleanRef s.toList := by
          rw [hc1]
          exact hc2
        rw [hb, build_mk_fixed _ hfix hex]
  · intro s hq hamp
    by_cases hs : s = ""
    · simp [normalizeDriveUrl, hs]
    · obtain ⟨hc1, hc2⟩ := cleanRef_of_noQuote s.toList hq
      have hfix : cleanRef (cleanRef s.toList) = cleanRef s.toList := by
        rw [hc1]
        exact hc2
      have htamp : (cleanRef s.toList).all (fun c => !decide (c = '&')) = true :=
        all_cleanRef _ _ hamp
      by_cases hcont : containsSeq drivePat (cleanRef s.toList)
      · cases hex : normExtract (cleanRef s.toList) with
        | some id =>
          obtain ⟨hne, hall⟩ := normExtract_some _ _ hex htamp
          have hex' : normExtract (cleanRef s.data) = some id := hex
          have hcont' : containsSeq drivePat (cleanRef s.data) = true := hcont
          have hb : normalizeDriveUrl s = String.mk (dlPre ++ id ++ dlSuf) := by
            simp [normalizeDriveUrl, hs, hcont', hex']
          rw [hb, norm_fixed_of_id id hne hall]
        | none =>
          have hex' : normExtract (cleanRef s.data) = none := hex
          have hcont' : containsSeq drivePat (cleanRef s.data) = true := hcont
          have hb : normalizeDriveUrl s = String.mk (cleanRef s.toList) := by
            simp [normalizeDriveUrl, hs, hcont', hex']
          rw [hb, norm_mk_fixed _ hfix (Or.inr hex)]
      · have hcont' : containsSeq drivePat (cleanRef s.data) = false := by
          simpa using hcont
        have hb : normalizeDriveUrl s = String.mk (cleanRef s.toList) := by
          simp [normalizeDriveUrl, hs, hcont']
        rw [hb, norm_mk_fixed _ hfix (Or.inl (by simpa using hcont))]

/-- Witness for C10 at concrete quote-free (and, for the second resolver,
`&`-free) inputs. -/
theorem c10_witness :
    buildDriveThumbnailUrl (buildDriveThumbnailUrl " 1DkJngqekuCgrFz0wF13MlOVPj59Zk3cj") =
      buildDriveThumbnailUrl " 1DkJngqekuCgrFz0wF13MlOVPj59Zk3cj" ∧
    normalizeDriveUrl (normalizeDriveUrl "https://drive.google.com/uc?id=XYZ") =
      normalizeDriveUrl "https://drive.google.com/uc?id=XYZ" :=
  ⟨c10_idempotent.1 " 1DkJngqekuCgrFz0wF13MlOVPj59Zk3cj" (by decide),
   c10_idempotent.2 "https://drive.google.com/uc?id=XYZ" (by decide) (by decide)⟩

/-- Claim C10 counterexample to the claim as stated: on a quoted input whose
quotes surround whitespace the first resolver pass only strips the quotes,
and the second pass trims the exposed whitespace, so the resolvers are not
idempotent; and `normalizeDriveUrl` also fails to be idempotent on an
unquoted input whose `/file/d/` identifier contains the hosting domain and
an `&`. -/
theorem c10_counterexample :
    buildDriveThumbnailUrl (buildDriveThumbnailUrl "\" http://cdn.example.com/x\"") ≠
      buildDriveThumbnailUrl "\" http://cdn.example.com/x\"" ∧
    normalizeDriveUrl (normalizeDriveUrl "\" http://cdn.example.com/x\"") ≠
      normalizeDriveUrl "\" http://cdn.example.com/x\"" ∧
    normalizeDriveUrl
        (normalizeDriveUrl "drive.google.com/file/d/drive.google.com&x") ≠
      normalizeDriveUrl "drive.google.com/file/d/drive.google.com&x" := by
  exact ⟨by decide, by decide, by decide⟩

end ConnInv
